import Mathlib

/-!
Verification development for the kits cryptographic engine
(`src-tauri/src` of the kits repository).

Byte strings are modelled as `List Nat` with each element intended to be
`< 256` (hypotheses state the bound where a proof needs it).  Fallible Rust
code returning `Result<T, Error>` is modelled by `Res`, which also has an
explicit `panicked` outcome so that `Option::unwrap` / slice-indexing panics
in the source are visible in the model.
-/

namespace Kits

/-- Mirror of `utils/errors.rs::Error`: `Unsupported` carries a message,
`Internal` wraps an `anyhow` context chain (collapsed here to its text).
The `Io` variant is unreachable from the code under study and is omitted. -/
inductive Error where
  | unsupported (msg : String)
  | internal (msg : String)
deriving DecidableEq, Repr

/-- Outcome of a Rust call: `Ok`, `Err`, or a panic (`unwrap` on `None`,
out-of-range slice, `GenericArray::from_slice` length mismatch). -/
inductive Res (α : Type) where
  | ok (val : α)
  | err (e : Error)
  | panicked
deriving DecidableEq, Repr

/-- Sequencing of fallible computations (Rust `?`). -/
def Res.andThen {α β : Type} (r : Res α) (f : α → Res β) : Res β :=
  match r with
  | .ok v => f v
  | .err e => .err e
  | .panicked => .panicked

/-- Mapping over a successful outcome. -/
def Res.map {α β : Type} (f : α → β) (r : Res α) : Res β :=
  match r with
  | .ok v => .ok (f v)
  | .err e => .err e
  | .panicked => .panicked

/-- Byte strings (`Vec<u8>` / `&[u8]`). -/
abbrev Bytes := List Nat

/-! ## Codec layer (`codec.rs`)

`base64ct::Base64` (standard alphabet, padded) and `base16ct::lower`
are embedded concretely.  Both `base64_encode`/`base64_decode` and
`hex_encode`/`hex_decode` special-case the empty input exactly as the
Rust functions do. -/

/-- Standard base64 alphabet, index to character. -/
def b64Char (n : Nat) : Char :=
  if n < 26 then Char.ofNat (65 + n)
  else if n < 52 then Char.ofNat (97 + (n - 26))
  else if n < 62 then Char.ofNat (48 + (n - 52))
  else if n = 62 then '+'
  else '/'

/-- Standard base64 alphabet, character to index (`None` on a
non-alphabet character, including `=`). -/
def b64Index (c : Char) : Option Nat :=
  if 'A' ≤ c ∧ c ≤ 'Z' then some (c.toNat - 65)
  else if 'a' ≤ c ∧ c ≤ 'z' then some (26 + (c.toNat - 97))
  else if '0' ≤ c ∧ c ≤ '9' then some (52 + (c.toNat - 48))
  else if c = '+' then some 62
  else if c = '/' then some 63
  else none

/-- Base64 encoding of a byte string, three input bytes per four output
characters, `=`-padded final quantum. -/
def b64EncodeBytes : Bytes → List Char
  | [] => []
  | [b0] => [b64Char (b0 / 4), b64Char (b0 % 4 * 16), '=', '=']
  | [b0, b1] =>
      [b64Char (b0 / 4), b64Char (b0 % 4 * 16 + b1 / 16),
       b64Char (b1 % 16 * 4), '=']
  | b0 :: b1 :: b2 :: rest =>
      b64Char (b0 / 4) :: b64Char (b0 % 4 * 16 + b1 / 16) ::
      b64Char (b1 % 16 * 4 + b2 / 64) :: b64Char (b2 % 64) ::
      b64EncodeBytes rest

/-- Decode one full (non-final) base64 quantum. -/
def b64DecodeQuantum (c0 c1 c2 c3 : Char) : Option Bytes := do
  let s0 ← b64Index c0
  let s1 ← b64Index c1
  let s2 ← b64Index c2
  let s3 ← b64Index c3
  some [s0 * 4 + s1 / 16, s1 % 16 * 16 + s2 / 4, s2 % 4 * 64 + s3]

/-- Strict base64 decoding (as `base64ct`): length must be a multiple of
four, padding only in the final quantum, and the unused bits of the final
quantum must be zero (the canonicity check `base64ct` performs). -/
def b64DecodeChars : List Char → Option Bytes
  | [] => some []
  | c0 :: c1 :: c2 :: c3 :: rest =>
      if rest = [] then
        if c2 = '=' ∧ c3 = '=' then do
          let s0 ← b64Index c0
          let s1 ← b64Index c1
          if s1 % 16 = 0 then some [s0 * 4 + s1 / 16] else none
        else if c3 = '=' then do
          let s0 ← b64Index c0
          let s1 ← b64Index c1
          let s2 ← b64Index c2
          if s2 % 4 = 0 then some [s0 * 4 + s1 / 16, s1 % 16 * 16 + s2 / 4]
          else none
        else b64DecodeQuantum c0 c1 c2 c3
      else do
        let b ← b64DecodeQuantum c0 c1 c2 c3
        let t ← b64DecodeChars rest
        some (b ++ t)
  | _ => none

/-- `codec.rs::base64_encode` with `unpadded = false`, `urlsafety = false`
(the combination `TextEncoding::Base64` uses); empty input is special-cased
to the empty string. -/
def base64_encode (input : Bytes) : Res String :=
  if input = [] then .ok "" else .ok (String.mk (b64EncodeBytes input))

/-- `codec.rs::base64_decode` with `unpadded = false`, `urlsafety = false`;
empty input is special-cased to the empty byte string, a codec failure is
wrapped into an internal (context) error. -/
def base64_decode (input : String) : Res Bytes :=
  if input = "" then .ok []
  else
    match b64DecodeChars input.toList with
    | some v => .ok v
    | none => .err (.internal ("base64 decode failed"))

/-- Lower-case hex digit for a nibble. -/
def hexChar (n : Nat) : Char :=
  if n < 10 then Char.ofNat (48 + n) else Char.ofNat (97 + (n - 10))

/-- Value of a lower-case hex digit (`base16ct::lower` rejects upper case). -/
def hexVal (c : Char) : Option Nat :=
  if '0' ≤ c ∧ c ≤ '9' then some (c.toNat - 48)
  else if 'a' ≤ c ∧ c ≤ 'f' then some (10 + (c.toNat - 97))
  else none

/-- Hex encoding, two characters per byte. -/
def hexEncodeBytes : Bytes → List Char
  | [] => []
  | b :: rest => hexChar (b / 16) :: hexChar (b % 16) :: hexEncodeBytes rest

/-- Strict lower-case hex decoding: even length, lower-case digits only. -/
def hexDecodeChars : List Char → Option Bytes
  | [] => some []
  | c0 :: c1 :: rest => do
      let h ← hexVal c0
      let l ← hexVal c1
      let t ← hexDecodeChars rest
      some ((h * 16 + l) :: t)
  | _ => none

/-- `codec.rs::hex_encode` with `uppercase = false`; empty input is
special-cased to the empty string. -/
def hex_encode (input : Bytes) : Res String :=
  if input = [] then .ok "" else .ok (String.mk (hexEncodeBytes input))

/-- `codec.rs::hex_decode` with `uppercase = false`; empty input is
special-cased to the empty byte string. -/
def hex_decode (input : String) : Res Bytes :=
  if input = "" then .ok []
  else
    match hexDecodeChars input.toList with
    | some v => .ok v
    | none => .err (.internal ("hex encode failed"))

/-- `codec.rs::string_encode` (`String::from_utf8`): the bytes must form
valid UTF-8. -/
def string_encode (input : Bytes) : Res String :=
  match String.fromUTF8? (ByteArray.mk (Array.mk (input.map (fun b => UInt8.ofNat b)))) with
  | some s => .ok s
  | none => .err (.internal ("utf-8 encode failed"))

/-- `codec.rs::string_decode` (`str::as_bytes`). -/
def string_decode (input : String) : Res Bytes :=
  .ok (input.toUTF8.toList.map (fun b => b.toNat))

/-- `enums.rs::TextEncoding`. -/
inductive TextEncoding where
  | base64
  | utf8
  | hex
deriving DecidableEq, Repr

/-- `TextEncoding::encode`. -/
def TextEncoding.encode : TextEncoding → Bytes → Res String
  | .base64, input => base64_encode input
  | .utf8, input => string_encode input
  | .hex, input => hex_encode input

/-- `TextEncoding::decode`. -/
def TextEncoding.decode : TextEncoding → String → Res Bytes
  | .base64, input => base64_decode input
  | .utf8, input => string_decode input
  | .hex, input => hex_decode input

/-! ## Symmetric cipher layer (`crypto/aes.rs`)

The AES block permutation, the GCM keystream and the GCM tag come from the
`aes`/`aes-gcm` crates and are not part of this repository; they are taken
as parameters bundled in `AesPrims`, constrained exactly by the library
contract the repository relies on (the block operation is a length-16
permutation, the keystream has the requested length, the tag is 16 bytes).
Everything else — the key-length dispatch, the IV handling, padding, block
chaining and the GCM envelope — is translated from `crypto/aes.rs`. -/

/-- `utils/enums.rs::EncryptionMode`. -/
inductive EncryptionMode where
  | ecb
  | cbc
  | gcm
deriving DecidableEq, Repr

/-- `utils/enums.rs::AesEncryptionPadding`. -/
inductive AesEncryptionPadding where
  | pkcs7Padding
  | noPadding
deriving DecidableEq, Repr

/-- Library primitives used by `crypto/aes.rs`, with the contracts the
code relies on. `encB`/`decB` is the AES block permutation for the key
(the key's length, 16 or 32, selects `Aes128`/`Aes256`), `ks key nonce n`
is the first `n` bytes of the CTR keystream used by GCM, and
`tagF key nonce aad ct` is the 16-byte GCM authentication tag. -/
structure AesPrims where
  encB : Bytes → Bytes → Bytes
  decB : Bytes → Bytes → Bytes
  ks : Bytes → Bytes → Nat → Bytes
  tagF : Bytes → Bytes → Bytes → Bytes → Bytes
  encB_length : ∀ key b, (encB key b).length = 16
  decB_encB : ∀ key b, b.length = 16 → decB key (encB key b) = b
  ks_length : ∀ key nonce n, (ks key nonce n).length = n
  tagF_length : ∀ key nonce aad ct, (tagF key nonce aad ct).length = 16

/-- Pointwise XOR of two byte strings (truncating to the shorter). -/
def xorB (a b : Bytes) : Bytes := List.zipWith (fun x y => x ^^^ y) a b

/-- Split a byte string into 16-byte blocks (the last block may be short
when the length is not a multiple of 16). -/
def chunk16 (l : Bytes) : List Bytes :=
  if l = [] then [] else l.take 16 :: chunk16 (l.drop 16)
termination_by l.length
decreasing_by
  simp only [List.length_drop]
  cases l with
  | nil => simp_all
  | cons a t => simp; omega

/-- PKCS#7 padding to a 16-byte boundary. -/
def pkcs7Pad (l : Bytes) : Bytes :=
  l ++ List.replicate (16 - l.length % 16) (16 - l.length % 16)

/-- PKCS#7 unpadding as `block-padding::Pkcs7::unpad` behaves on the output
of a whole-blocks decryption: the last byte gives the pad length, which must
be between 1 and 16 and must be repeated over the whole pad region. -/
def pkcs7Unpad (l : Bytes) : Res Bytes :=
  if 1 ≤ l.getLastD 0 ∧ l.getLastD 0 ≤ 16 ∧ l.getLastD 0 ≤ l.length ∧
      (l.drop (l.length - l.getLastD 0)).all (fun b => b = l.getLastD 0)
  then .ok (l.take (l.length - l.getLastD 0))
  else .err (.internal ("aes decrypt failed"))

/-- CBC encryption over a list of 16-byte blocks, chaining on the previous
ciphertext block (`cbc::Encryptor`). -/
def cbcEncBlocks (P : AesPrims) (key : Bytes) : Bytes → List Bytes → List Bytes
  | _, [] => []
  | iv, b :: bs =>
      let c := P.encB key (xorB iv b)
      c :: cbcEncBlocks P key c bs

/-- CBC decryption over a list of 16-byte blocks (`cbc::Decryptor`). -/
def cbcDecBlocks (P : AesPrims) (key : Bytes) : Bytes → List Bytes → List Bytes
  | _, [] => []
  | iv, c :: cs => xorB iv (P.decB key c) :: cbcDecBlocks P key c cs

/-- `crypto/aes.rs::encrypt_aes_inner_in`, abstracted over the block-mode
operation (`encrypt_padded_b2b_mut`): PKCS#7 pads then encrypts whole
blocks; `NoPadding` requires the input length to be a multiple of 16. -/
def encrypt_aes_inner_in (padding : AesEncryptionPadding)
    (blockop : List Bytes → List Bytes) (plaintext : Bytes) : Res Bytes :=
  match padding with
  | .pkcs7Padding => .ok (blockop (chunk16 (pkcs7Pad plaintext))).flatten
  | .noPadding =>
      if plaintext.length % 16 = 0 then .ok (blockop (chunk16 plaintext)).flatten
      else .err (.internal ("aes encrypt failed"))

/-- `crypto/aes.rs::decrypt_aes_inner_in` (`decrypt_padded_b2b_mut`): the
input must be whole blocks; PKCS#7 then validates and strips the padding. -/
def decrypt_aes_inner_in (padding : AesEncryptionPadding)
    (blockop : List Bytes → List Bytes) (ciphertext : Bytes) : Res Bytes :=
  if ciphertext.length % 16 = 0 then
    match padding with
    | .pkcs7Padding => pkcs7Unpad (blockop (chunk16 ciphertext)).flatten
    | .noPadding => .ok (blockop (chunk16 ciphertext)).flatten
  else .err (.internal ("aes decrypt failed"))

/-- AES-GCM encryption (`AeadMutInPlace::encrypt_in_place`): the ciphertext
is the keystream-masked plaintext followed by the 16-byte tag. -/
def gcmEnc (P : AesPrims) (key nonce aad pt : Bytes) : Bytes :=
  xorB pt (P.ks key nonce pt.length) ++
    P.tagF key nonce aad (xorB pt (P.ks key nonce pt.length))

/-- AES-GCM decryption (`AeadMutInPlace::decrypt_in_place`): fails closed
when the buffer is shorter than the tag or the tag does not match. -/
def gcmDec (P : AesPrims) (key nonce aad input : Bytes) : Res Bytes :=
  if input.length < 16 then .err (.internal ("aes gcm decrypt failed"))
  else
    if input.drop (input.length - 16) =
        P.tagF key nonce aad (input.take (input.length - 16))
    then .ok (xorB (input.take (input.length - 16))
                (P.ks key nonce (input.length - 16)))
    else .err (.internal ("aes gcm decrypt failed"))

/-- `crypto/aes.rs::encrypt_or_decrypt_aes_inner`.  Note the source calls
`iv.unwrap()` in the CBC and GCM arms (a panic when the IV is absent) and
`Nonce::from_slice` in the GCM arm (a panic when the IV is not 12 bytes);
CBC IV length is checked by `new_from_slices`, which returns an error. -/
def encrypt_or_decrypt_aes_inner (P : AesPrims) (mode : EncryptionMode)
    (plaintext key : Bytes) (iv aad : Option Bytes)
    (padding : AesEncryptionPadding) (forEncryption : Bool) : Res Bytes :=
  match mode with
  | .ecb =>
      if forEncryption then
        encrypt_aes_inner_in padding (List.map (P.encB key)) plaintext
      else
        decrypt_aes_inner_in padding (List.map (P.decB key)) plaintext
  | .cbc =>
      match iv with
      | none => .panicked
      | some ivb =>
          if forEncryption then
            if ivb.length = 16 then
              encrypt_aes_inner_in padding (cbcEncBlocks P key ivb) plaintext
            else .err (.internal ("construct aes_cbc_encryptor failed"))
          else
            if ivb.length = 16 then
              decrypt_aes_inner_in padding (cbcDecBlocks P key ivb) plaintext
            else .err (.internal ("construct aes_ecb_decryptor failed"))
  | .gcm =>
      match iv with
      | none => .panicked
      | some nonce =>
          if nonce.length = 12 then
            let association := aad.getD []
            if forEncryption then .ok (gcmEnc P key nonce association plaintext)
            else gcmDec P key nonce association plaintext
          else .panicked

/-- `crypto/aes.rs::encrypt_or_decrypt_aes`: key-length dispatch.  Any key
length other than 16 or 32 is rejected with `Error::Unsupported` before any
cipher object is constructed. -/
def encrypt_or_decrypt_aes (P : AesPrims) (mode : EncryptionMode)
    (plaintext key : Bytes) (iv aad : Option Bytes)
    (padding : AesEncryptionPadding) (forEncryption : Bool) : Res Bytes :=
  if key.length = 16 ∨ key.length = 32 then
    encrypt_or_decrypt_aes_inner P mode plaintext key iv aad padding forEncryption
  else .err (.unsupported ("keysize " ++ toString key.length))

/-- `crypto/aes.rs::AesEncryptoinDto` (name as in the source). -/
structure AesEncryptoinDto where
  input : String
  inputEncoding : TextEncoding
  key : String
  keyEncoding : TextEncoding
  outputEncoding : TextEncoding
  mode : EncryptionMode
  padding : AesEncryptionPadding
  iv : Option String
  ivEncoding : Option TextEncoding
  aad : Option String
  aadEncoding : Option TextEncoding
  forEncryption : Bool

/-- IV preprocessing in `crypto/aes.rs::crypto_aes`: a present IV is decoded
only when an encoding selector is present, and a failed decode is replaced
by the empty byte string (`unwrap_or_default`). -/
def dtoIvBytes (data : AesEncryptoinDto) : Option Bytes :=
  data.iv.bind (fun nonce =>
    data.ivEncoding.map (fun enc =>
      match enc.decode nonce with
      | .ok v => v
      | _ => []))

/-- AAD preprocessing in `crypto/aes.rs::crypto_aes`, same shape as the IV. -/
def dtoAadBytes (data : AesEncryptoinDto) : Option Bytes :=
  data.aad.bind (fun association =>
    data.aadEncoding.map (fun enc =>
      match enc.decode association with
      | .ok v => v
      | _ => []))

/-- `crypto/aes.rs::crypto_aes` (tauri command body). -/
def crypto_aes (P : AesPrims) (data : AesEncryptoinDto) : Res String :=
  let iv := dtoIvBytes data
  let aad := dtoAadBytes data
  (data.keyEncoding.decode data.key).andThen (fun keyBytes =>
  (data.inputEncoding.decode data.input).andThen (fun plaintext =>
  (encrypt_or_decrypt_aes P data.mode plaintext keyBytes iv aad data.padding
      data.forEncryption).andThen (fun output =>
  data.outputEncoding.encode output)))

/-! ## ECIES layer (`crypto/ecc.rs`, `crypto/edwards.rs`, `crypto/curve_25519.rs`)

Curve points are abstracted by their discrete logarithm: a public key is
represented by the `Nat` scalar of the generator multiple it denotes, so the
Diffie-Hellman shared value of a scalar and a point is their product, which
makes `dh(a, bG) = dh(b, aG)` hold by commutativity — the only property of
the curve arithmetic the protocol uses.  The DER/PEM key importers and the
PBKDF2 function come from external crates and are parameters of
`EciesPrims`; the protocol structure (envelope layout, KDF call shape,
AEAD invocation, slicing) is translated from the source. -/

/-- `enums.rs::KeyFormat` (identical to the older generation's
`helper::enums::KeyEncoding`): PEM or DER. -/
inductive KeyFormat where
  | pem
  | der
deriving DecidableEq, Repr

/-- `helper/enums.rs::EccKeyFormat`: PKCS8 (the `BaseKeyFormat` wrapper) or
SEC1 private-key container. -/
inductive EccKeyFormat where
  | pkcs8
  | sec1
deriving DecidableEq, Repr

/-- ECDH shared scalar in the discrete-log abstraction: scalar times the
counterpart point's discrete log. -/
def ecdhShared (a b : Nat) : Nat := a * b

/-- Fixed-width little-endian byte encoding of a natural number. -/
def natToBytesLE : Nat → Nat → Bytes
  | 0, _ => []
  | w + 1, v => v % 256 :: natToBytesLE w (v / 256)

/-- Little-endian byte decoding. -/
def bytesFromLE : Bytes → Nat
  | [] => 0
  | b :: bs => b % 256 + 256 * bytesFromLE bs

/-- `crypto/kdf.rs::SALT`, the hard-coded ECIES KDF salt, as its UTF-8
bytes (the string constant is `VSPDJrx1Pj1zqVGN`). -/
def SALT_BYTES : Bytes :=
  [86, 83, 80, 68, 74, 114, 120, 49, 80, 106, 49, 122, 113, 86, 71, 78]

/-- External primitives used by the ECIES code, bundled with the contracts
the code relies on.  `kd ikm salt iters n` is
`pbkdf2::pbkdf2_hmac_array::<sha2::Sha512, n>(ikm, salt, iters)`;
`wImportPub`/`wImportPriv` are the Weierstrass-curve SPKI/PKCS8-SEC1
importers of `crypto/ecc.rs`, `edImportPub`/`edImportPriv` the
`ed25519_dalek` importers, each returning the imported key's discrete-log
representation on success. -/
structure EciesPrims extends AesPrims where
  kd : Bytes → Bytes → Nat → Nat → Bytes
  kd_length : ∀ ikm salt iters n, (kd ikm salt iters n).length = n
  wImportPub : Bytes → KeyFormat → Option Nat
  wImportPriv : Bytes → EccKeyFormat → KeyFormat → Option Nat
  edImportPub : Bytes → KeyFormat → Option Nat
  edImportPriv : Bytes → KeyFormat → Option Nat
  edImportPrivOld : Bytes → EccKeyFormat → KeyFormat → Option Nat

/-- Encryption branch of `crypto/ecc.rs::ecies_inner` (the NIST/secp
branch of the `ecies` command).  `fs` is the curve's field size in bytes
(the length of `raw_secret_bytes`), `ephPriv` the randomly generated
ephemeral scalar and `nonce` the randomly generated GCM nonce.  The output
is `nonce || aead_ciphertext`: the ephemeral public key (`octet_string` in
the source) is computed but never written to the result, and the AEAD key
is the raw shared-secret bytes (`Aes256Gcm::new_from_slice` fails unless
they are exactly 32 bytes). -/
def ecies_inner_encrypt (P : EciesPrims) (fs : Nat) (ephPriv : Nat)
    (nonce : Bytes) (input key : Bytes) (encoding : KeyFormat) : Res Bytes :=
  match P.wImportPub key encoding with
  | none => .err (.internal ("informal der public key"))
  | some pub =>
      let sharedBytes := natToBytesLE fs (ecdhShared ephPriv pub)
      if sharedBytes.length = 32 then
        .ok (nonce ++ gcmEnc P.toAesPrims sharedBytes nonce [] input)
      else .err (.internal ("init aes 256 gcm cipher failed"))

/-- Decryption branch of `crypto/ecc.rs::ecies_inner`: copies
`input[..32]` (a panic when the input is shorter than 32), imports the own
private key, re-imports those 32 bytes as a DER/PEM public key, computes
the shared secret, then reads `input[32..44]` as the nonce (a panic when
the input is shorter than 44) and AEAD-decrypts the remainder. -/
def ecies_inner_decrypt (P : EciesPrims) (fs : Nat) (input key : Bytes)
    (format : EccKeyFormat) (encoding : KeyFormat) : Res Bytes :=
  if input.length < 32 then .panicked
  else
    match P.wImportPriv key format encoding with
    | none => .err (.internal ("informal ecc private key"))
    | some priv =>
        match P.wImportPub (input.take 32) encoding with
        | none => .err (.internal ("informal der public key"))
        | some pub =>
            let sharedBytes := natToBytesLE fs (ecdhShared priv pub)
            if sharedBytes.length = 32 then
              if input.length < 44 then .panicked
              else
                let nonce := (input.drop 32).take 12
                let ciphertext := input.drop 44
                gcmDec P.toAesPrims sharedBytes nonce [] ciphertext
            else .err (.internal ("init aes 256 gcm cipher failed"))

/-- `crypto/ecc.rs::ecies_inner` with the direction flag, as dispatched by
the `ecies` command. -/
def ecies_inner (P : EciesPrims) (fs : Nat) (ephPriv : Nat) (nonce : Bytes)
    (input key : Bytes) (format : EccKeyFormat) (encoding : KeyFormat)
    (forEncryption : Bool) : Res Bytes :=
  if forEncryption then ecies_inner_encrypt P fs ephPriv nonce input key encoding
  else ecies_inner_decrypt P fs input key format encoding

/-- `crypto/edwards.rs::curve_25519_ecies_encrypt`: the ephemeral X25519
public key (32 bytes, no length prefix) followed by the AES-256-GCM
ciphertext produced through `encrypt_or_decrypt_aes`, whose key and nonce
are the 32/12 split of a 44-byte PBKDF2-HMAC-SHA512 expansion of the shared
secret under the fixed salt and 210,000 iterations. -/
def curve_25519_ecies_encrypt (P : EciesPrims) (ephPriv : Nat)
    (input key : Bytes) (format : KeyFormat) : Res Bytes :=
  match P.edImportPub key format with
  | none => .err (.internal ("informal pem public key"))
  | some publicKey =>
      let receiverPublicKeyBytes := natToBytesLE 32 ephPriv
      let sharedSecret := ecdhShared ephPriv publicKey
      let pkfKey := P.kd (natToBytesLE 32 sharedSecret) SALT_BYTES 210000 44
      let secret := pkfKey.take 32
      let iv := pkfKey.drop 32
      (encrypt_or_decrypt_aes P.toAesPrims .gcm input secret (some iv) none
          .noPadding true).map
        (fun encrypted => receiverPublicKeyBytes ++ encrypted)

/-- `crypto/edwards.rs::curve_25519_ecies_decrypt`: imports the own
private key, splits the input at the fixed offset 32 (`split_at` panics on
a shorter input), recomputes the PBKDF2 expansion of the shared secret and
AEAD-decrypts the remainder. -/
def curve_25519_ecies_decrypt (P : EciesPrims) (input key : Bytes)
    (format : KeyFormat) : Res Bytes :=
  match P.edImportPriv key format with
  | none => .err (.internal ("informal curve 25519 private key"))
  | some signingKey =>
      if input.length < 32 then .panicked
      else
        let receiverSecret := bytesFromLE (input.take 32)
        let rest := input.drop 32
        let sharedSecret := ecdhShared signingKey receiverSecret
        let pkfKey := P.kd (natToBytesLE 32 sharedSecret) SALT_BYTES 210000 44
        encrypt_or_decrypt_aes P.toAesPrims .gcm rest (pkfKey.take 32)
          (some (pkfKey.drop 32)) none .noPadding false

/-- `crypto/edwards.rs::curve_25519_ecies`. -/
def curve_25519_ecies (P : EciesPrims) (ephPriv : Nat) (input key : Bytes)
    (format : KeyFormat) (forEncryption : Bool) : Res Bytes :=
  if forEncryption then curve_25519_ecies_encrypt P ephPriv input key format
  else curve_25519_ecies_decrypt P input key format

/-- `crypto/curve_25519.rs::curve_25519_ecies_inner` (the older generation
of the Curve25519 ECIES, the only one that writes a length prefix):
encryption pushes `receiver_public_key_bytes.len() as u8` (always 32) before
the ephemeral key; decryption splits off one byte (a panic on empty input),
rejects any prefix other than 32 with `Error::Unsupported`, then splits off
32 bytes (a panic when fewer remain) before importing the private key and
decrypting.  Its AES call goes through the same GCM/NoPadding path as the
newer generation. -/
def curve_25519_ecies_inner (P : EciesPrims) (ephPriv : Nat)
    (input key : Bytes) (format : EccKeyFormat) (encoding : KeyFormat)
    (forEncryption : Bool) : Res Bytes :=
  if forEncryption then
    match P.edImportPub key encoding with
    | none => .err (.internal ("informal pem public key"))
    | some publicKey =>
        let receiverPublicKeyBytes := natToBytesLE 32 ephPriv
        let sharedSecret := ecdhShared ephPriv publicKey
        let pkfKey := P.kd (natToBytesLE 32 sharedSecret) SALT_BYTES 210000 44
        (encrypt_or_decrypt_aes P.toAesPrims .gcm input (pkfKey.take 32)
            (some (pkfKey.drop 32)) none .noPadding true).map
          (fun encrypted =>
            (receiverPublicKeyBytes.length % 256) :: receiverPublicKeyBytes ++ encrypted)
  else
    match input with
    | [] => .panicked
    | lenByte :: rest =>
        if lenByte ≠ 32 then
          .err (.unsupported ("unsupported pubkey length " ++ toString lenByte))
        else if rest.length < 32 then .panicked
        else
          let receiverSecret := bytesFromLE (rest.take 32)
          match P.edImportPrivOld key format encoding with
          | none => .err (.internal ("informal curve 25519 private key"))
          | some signingKey =>
              let sharedSecret := ecdhShared signingKey receiverSecret
              let pkfKey := P.kd (natToBytesLE 32 sharedSecret) SALT_BYTES 210000 44
              encrypt_or_decrypt_aes P.toAesPrims .gcm (rest.drop 32)
                (pkfKey.take 32) (some (pkfKey.drop 32)) none .noPadding false

/-! ## KDF layer (`crypto/kdf.rs`)

The digest compression functions, PBKDF2 and scrypt cores come from
external crates and are parameters of `KdfPrims`.  The HMAC key
normalisation (zero-padding to the digest block size, pre-hashing of
over-long keys), the HKDF extract/expand structure with its RFC 5869
output bound of `255 * hash_len`, and the dispatch and salt checks of
`kdf_inner` are embedded concretely. -/

/-- `utils/enums.rs::Digest`. -/
inductive Digest where
  | sha1
  | sha256
  | sha384
  | sha512
  | sha3_256
  | sha3_384
  | sha3_512
deriving DecidableEq, Repr

/-- Output size of each digest in bytes. -/
def Digest.hashLen : Digest → Nat
  | .sha1 => 20
  | .sha256 => 32
  | .sha384 => 48
  | .sha512 => 64
  | .sha3_256 => 32
  | .sha3_384 => 48
  | .sha3_512 => 64

/-- HMAC block size (rate, for the SHA-3 family) of each digest in bytes. -/
def Digest.blockLen : Digest → Nat
  | .sha1 => 64
  | .sha256 => 64
  | .sha384 => 128
  | .sha512 => 128
  | .sha3_256 => 136
  | .sha3_384 => 104
  | .sha3_512 => 72

/-- `utils/enums.rs::Kdf`. -/
inductive Kdf where
  | hkdf
  | concatenation
  | pbkdf2
  | scrypt
deriving DecidableEq, Repr

/-- External digest/KDF cores: `hmacCore d k m` is the raw HMAC
computation applied to an already block-sized key, `hashF` the digest
itself, `pbkdf2F d password salt rounds n` the `pbkdf2::pbkdf2` output and
`scryptF password salt n` the `scrypt::scrypt` output under the
recommended parameters. -/
structure KdfPrims where
  hmacCore : Digest → Bytes → Bytes → Bytes
  hashF : Digest → Bytes → Bytes
  pbkdf2F : Digest → Bytes → Bytes → Nat → Nat → Bytes
  scryptF : Bytes → Bytes → Nat → Bytes

/-- HMAC key normalisation: a key longer than the block size is hashed
first, then the key is zero-padded to the block size. -/
def hmacPadKey (Pr : KdfPrims) (d : Digest) (key : Bytes) : Bytes :=
  let k := if d.blockLen < key.length then Pr.hashF d key else key
  k ++ List.replicate (d.blockLen - k.length) 0

/-- HMAC over arbitrary-length keys. -/
def hmac (Pr : KdfPrims) (d : Digest) (key msg : Bytes) : Bytes :=
  Pr.hmacCore d (hmacPadKey Pr d key) msg

/-- HKDF-Extract (`hkdf::Hkdf::new`): an absent salt defaults to
`hash_len` zero bytes (RFC 5869), used as the HMAC key. -/
def hkdfExtract (Pr : KdfPrims) (d : Digest) (salt : Option Bytes)
    (ikm : Bytes) : Bytes :=
  hmac Pr d (salt.getD (List.replicate d.hashLen 0)) ikm

/-- HKDF-Expand block `T(i)` (`T(0)` is empty,
`T(i+1) = HMAC(prk, T(i) || info || [i+1])`). -/
def hkdfT (Pr : KdfPrims) (d : Digest) (prk info : Bytes) : Nat → Bytes
  | 0 => []
  | i + 1 => hmac Pr d prk (hkdfT Pr d prk info i ++ info ++ [(i + 1) % 256])

/-- HKDF-Expand output of the requested length (before the bound check). -/
def hkdfOkm (Pr : KdfPrims) (d : Digest) (prk info : Bytes) (len : Nat) : Bytes :=
  (((List.range ((len + d.hashLen - 1) / d.hashLen)).map
    (fun i => hkdfT Pr d prk info (i + 1))).flatten).take len

/-- HKDF-Expand (`hkdf::Hkdf::expand`): fails when the requested length
exceeds `255 * hash_len` (RFC 5869), wrapped in the `kdf_inner` context
message. -/
def hkdfExpand (Pr : KdfPrims) (d : Digest) (prk info : Bytes) (len : Nat) :
    Res Bytes :=
  if 255 * d.hashLen < len then .err (.internal ("hkdf derive key faild"))
  else .ok (hkdfOkm Pr d prk info len)

/-- Big-endian fixed-width encoding (for the Concatenation-KDF counter). -/
def natToBytesBE (w v : Nat) : Bytes := (natToBytesLE w v).reverse

/-- `concat_kdf::derive_key_into`: counter-mode single-step KDF
(SP 800-56A); rejects an empty secret, an empty output request and a
counter overflow. -/
def concatDeriveKey (Pr : KdfPrims) (d : Digest) (secret info : Bytes)
    (len : Nat) : Res Bytes :=
  if secret = [] then .err (.internal ("concatenation derive key faild"))
  else if len = 0 then .err (.internal ("concatenation derive key faild"))
  else if 4294967295 * d.hashLen < len then
    .err (.internal ("concatenation derive key faild"))
  else
    .ok ((((List.range ((len + d.hashLen - 1) / d.hashLen)).map
      (fun i => Pr.hashF d (natToBytesBE 4 (i + 1) ++ secret ++ info))).flatten).take len)

/-- `crypto/kdf.rs::kdf_inner` (the digest type parameter `D` becomes the
`d : Digest` argument): HKDF passes the salt through as an `Option`
(`salt.as_deref()`) and defaults the info to empty; Concatenation ignores
the salt and defaults the info to empty; PBKDF2 (600,000 rounds) and
scrypt require a salt and otherwise return `Error::Unsupported`. -/
def kdf_inner (Pr : KdfPrims) (d : Digest) (kdf : Kdf) (input : Bytes)
    (salt info : Option Bytes) (keySize : Nat) : Res Bytes :=
  match kdf with
  | .hkdf =>
      let prk := hkdfExtract Pr d salt input
      hkdfExpand Pr d prk (info.getD []) keySize
  | .concatenation =>
      concatDeriveKey Pr d input (info.getD []) keySize
  | .pbkdf2 =>
      match salt with
      | none => .err (.unsupported ("pbkdf2 salt is required"))
      | some s => .ok (Pr.pbkdf2F d input s 600000 keySize)
  | .scrypt =>
      match salt with
      | none => .err (.unsupported ("scrypt salt is required"))
      | some s => .ok (Pr.scryptF input s keySize)

/-! ## Curve sniffing (`crypto/ecc/key.rs`)

`parse_curve_name` and the DER branch of `parse_ecc` try the typed
importers of the five curves in a fixed order; the importers themselves
(`elliptic_curve` DER/PEM parsers per curve) are parameters recorded as
success predicates. -/

/-- `enums.rs::EccCurveName`. -/
inductive EccCurveName where
  | nistP256
  | nistP384
  | nistP521
  | secp256k1
  | sm2
deriving DecidableEq, Repr

/-- `enums.rs::Pkcs`. -/
inductive Pkcs where
  | pkcs8
  | pkcs1
  | sec1
  | spki
deriving DecidableEq, Repr

/-- The per-curve importers used by `parse_curve_name`:
`importPriv c key pkcs format` is the success of
`import_ecc_private_key::<C>(key, pkcs, format)` and `importPub` that of
`import_ecc_public_key::<C>(key, format)`. -/
structure SniffPrims where
  importPriv : EccCurveName → Bytes → Pkcs → KeyFormat → Bool
  importPub : EccCurveName → Bytes → KeyFormat → Bool

/-- `crypto/ecc/key.rs::parse_curve_name`: for the PKCS8/SEC1 containers
the five private-key importers are tried in order NistP256, NistP384,
NistP521, Secp256k1, SM2; for SPKI the five public-key importers in the
same order; PKCS1 is rejected outright. -/
def parse_curve_name (S : SniffPrims) (key : Bytes) (pkcs : Pkcs)
    (format : KeyFormat) : Res EccCurveName :=
  match pkcs with
  | .pkcs8 | .sec1 =>
      if S.importPriv .nistP256 key pkcs format then .ok .nistP256
      else if S.importPriv .nistP384 key pkcs format then .ok .nistP384
      else if S.importPriv .nistP521 key pkcs format then .ok .nistP521
      else if S.importPriv .secp256k1 key pkcs format then .ok .secp256k1
      else if S.importPriv .sm2 key pkcs format then .ok .sm2
      else .err (.unsupported ("informal ecc key type"))
  | .spki =>
      if S.importPub .nistP256 key format then .ok .nistP256
      else if S.importPub .nistP384 key format then .ok .nistP384
      else if S.importPub .nistP521 key format then .ok .nistP521
      else if S.importPub .secp256k1 key format then .ok .secp256k1
      else if S.importPub .sm2 key format then .ok .sm2
      else .err (.unsupported ("informal ecc key type"))
  | .pkcs1 => .err (.unsupported ("informal ecc key type"))

/-- The `KeyFormat::Der` branch of `crypto/ecc/key.rs::parse_ecc` (raw
bytes of unknown family): try `parse_curve_name` with PKCS8, then with
PKCS1 (which always fails), then with SPKI; if all fail the command
reports `Error::Unsupported("pkcs")`. -/
def parse_ecc_der (S : SniffPrims) (key : Bytes) : Res (Pkcs × EccCurveName) :=
  match parse_curve_name S key .pkcs8 .der with
  | .ok curveName => .ok (.pkcs8, curveName)
  | _ =>
      match parse_curve_name S key .pkcs1 .der with
      | .ok keySize => .ok (.sec1, keySize)
      | _ =>
          match parse_curve_name S key .spki .der with
          | .ok keySize => .ok (.spki, keySize)
          | _ => .err (.unsupported ("pkcs"))

/-- The fixed curve priority order the specification documents. -/
def curvePriority : List EccCurveName :=
  [.nistP256, .nistP384, .nistP521, .secp256k1, .sm2]

/-- Specification-side restatement of the sniffing contract, written from
the spec's words: try each known curve's private-key importer, then each
public-key importer, in the fixed priority order, return the first
success, and report unsupported content when all fail. -/
def sniffSpec (S : SniffPrims) (key : Bytes) : Res (Pkcs × EccCurveName) :=
  match curvePriority.find? (fun c => S.importPriv c key .pkcs8 .der) with
  | some c => .ok (.pkcs8, c)
  | none =>
      match curvePriority.find? (fun c => S.importPub c key .der) with
      | some c => .ok (.spki, c)
      | none => .err (.unsupported ("pkcs"))

/-! ## Validity predicates and concrete instances

`ivValid`/`paddingValid` state the request shape the specification calls
valid; the `demo…` instances instantiate the external-primitive parameters
with small concrete functions satisfying the bundled contracts, so that
witnesses and counterexamples can be evaluated. -/

/-- The IV shape the specification calls valid for a mode: anything for
ECB (the ECB path never reads it), a present 16-byte IV for CBC, a present
12-byte nonce for GCM. -/
def ivValid : EncryptionMode → Option Bytes → Prop
  | .ecb, _ => True
  | .cbc, iv => ∃ v, iv = some v ∧ v.length = 16
  | .gcm, iv => ∃ v, iv = some v ∧ v.length = 12

/-- The padding appropriate to a mode: PKCS#7 for the block modes, anything
for GCM (the GCM path ignores the padding selector). -/
def paddingValid : EncryptionMode → AesEncryptionPadding → Prop
  | .ecb, p => p = .pkcs7Padding
  | .cbc, p => p = .pkcs7Padding
  | .gcm, _ => True

/-- A concrete block-cipher family satisfying the `AesPrims` contract:
the block operation normalises its input to 16 bytes (identity on 16-byte
blocks), the keystream and tag are zero bytes. -/
def demoAesPrims : AesPrims where
  encB := fun _ b => (b ++ List.replicate 16 0).take 16
  decB := fun _ b => b
  ks := fun _ _ n => List.replicate n 0
  tagF := fun _ _ _ _ => List.replicate 16 0
  encB_length := by
    intro key b
    simp
  decB_encB := by
    intro key b hb
    simp [← hb]
  ks_length := by intro key nonce n; simp
  tagF_length := by intro key nonce aad ct; simp

/-- A concrete `EciesPrims` instance: the KDF returns zero bytes of the
requested length, and each importer accepts a short tag followed by a
little-endian scalar (`48, 89` for a Weierstrass SPKI, `48, 42` for an
Ed25519 SPKI, `111` for private keys), mirroring that the real importers
succeed only on their own DER shapes. -/
def demoEciesPrims : EciesPrims where
  toAesPrims := demoAesPrims
  kd := fun _ _ _ n => List.replicate n 0
  kd_length := by intro ikm salt iters n; simp
  wImportPub := fun b _ =>
    match b with
    | 48 :: 89 :: rest => some (bytesFromLE rest)
    | _ => none
  wImportPriv := fun b _ _ =>
    match b with
    | 111 :: rest => some (bytesFromLE rest)
    | _ => none
  edImportPub := fun b _ =>
    match b with
    | 48 :: 42 :: rest => some (bytesFromLE rest)
    | _ => none
  edImportPriv := fun b _ =>
    match b with
    | 111 :: rest => some (bytesFromLE rest)
    | _ => none
  edImportPrivOld := fun b _ _ =>
    match b with
    | 111 :: rest => some (bytesFromLE rest)
    | _ => none

/-- A Weierstrass public key the demo importer accepts, with discrete log 5. -/
def demoWPubKey : Bytes := [48, 89, 5]

/-- An Ed25519 public key the demo importer accepts, with discrete log 9. -/
def demoEdPubKey : Bytes := [48, 42, 9]

/-- A private key the demo importers accept, with scalar 11. -/
def demoPrivKey : Bytes := [111, 11]

/-- A concrete `KdfPrims` instance: every core returns zero bytes of its
digest's output size (or of the requested length). -/
def demoKdfPrims : KdfPrims where
  hmacCore := fun d _ _ => List.replicate d.hashLen 0
  hashF := fun d _ => List.replicate d.hashLen 0
  pbkdf2F := fun _ _ _ _ n => List.replicate n 0
  scryptF := fun _ _ n => List.replicate n 0

/-! ## Theorems -/

@[simp] theorem Res.andThen_ok {α β : Type} (v : α) (f : α → Res β) :
    (Res.ok v).andThen f = f v := rfl

@[simp] theorem Res.andThen_err {α β : Type} (e : Error) (f : α → Res β) :
    (Res.err e).andThen f = .err e := rfl

@[simp] theorem Res.map_ok {α β : Type} (f : α → β) (v : α) :
    Res.map f (.ok v) = .ok (f v) := rfl

@[simp] theorem natToBytesLE_length (w v : Nat) : (natToBytesLE w v).length = w := by
  induction w generalizing v with
  | zero => rfl
  | succ n ih => simp [natToBytesLE, ih]

theorem chunk16_cons (l : Bytes) (h : l ≠ []) :
    chunk16 l = l.take 16 :: chunk16 (l.drop 16) := by
  rw [chunk16]
  simp [h]

theorem flatten_chunk16 (l : Bytes) : (chunk16 l).flatten = l := by
  induction l using chunk16.induct with
  | case1 => simp [chunk16]
  | case2 l hne ih =>
      rw [chunk16_cons l hne]
      simp [ih]

theorem chunk16_flatten (bss : List Bytes) (h : ∀ b ∈ bss, b.length = 16) :
    chunk16 bss.flatten = bss := by
  induction bss with
  | nil => simp [chunk16]
  | cons b t ih =>
      have hb : b.length = 16 := h b (by simp)
      have hnil : b ++ t.flatten ≠ [] := by
        intro hc
        have := congrArg List.length hc
        simp [hb] at this
      rw [List.flatten_cons, chunk16_cons _ hnil]
      rw [show (16 : Nat) = b.length from hb.symm, List.take_left, List.drop_left]
      rw [ih (fun x hx => h x (by simp [hx]))]

theorem flatten_blocks_length (bss : List Bytes) (h : ∀ b ∈ bss, b.length = 16) :
    bss.flatten.length = 16 * bss.length := by
  induction bss with
  | nil => simp
  | cons b t ih =>
      have hb : b.length = 16 := h b (by simp)
      simp [hb, ih (fun x hx => h x (by simp [hx]))]
      ring

theorem chunk16_blocks_length (l : Bytes) (h : l.length % 16 = 0) :
    ∀ b ∈ chunk16 l, b.length = 16 := by
  induction l using chunk16.induct with
  | case1 => simp [chunk16]
  | case2 l hne ih =>
      rw [chunk16_cons l hne]
      intro b hb
      have hlen : 16 ≤ l.length := by
        rcases Nat.lt_or_ge l.length 16 with hlt | hge
        · interval_cases hl : l.length <;> simp_all
        · exact hge
      rcases List.mem_cons.mp hb with rfl | hmem
      · simp [List.length_take]
        omega
      · exact ih (by simp [List.length_drop]; omega) b hmem

theorem pkcs7Pad_length_mod (l : Bytes) : (pkcs7Pad l).length % 16 = 0 := by
  simp [pkcs7Pad]
  omega

theorem pkcs7Unpad_pkcs7Pad (l : Bytes) : pkcs7Unpad (pkcs7Pad l) = .ok l := by
  have hmod : l.length % 16 < 16 := Nat.mod_lt _ (by omega)
  unfold pkcs7Pad pkcs7Unpad
  generalize hp : 16 - l.length % 16 = p
  have hp1 : 1 ≤ p := by omega
  have hp16 : p ≤ 16 := by omega
  have hrep : List.replicate p p = List.replicate (p - 1) p ++ [p] := by
    rw [← List.replicate_succ']
    congr 1
    omega
  have hlast : (l ++ List.replicate p p).getLastD 0 = p := by
    rw [List.getLastD_eq_getLast?, hrep, ← List.append_assoc,
      List.getLast?_concat]
    rfl
  have hlen : (l ++ List.replicate p p).length = l.length + p := by simp
  have hsub : (l ++ List.replicate p p).length - p = l.length := by omega
  rw [hlast, hsub, List.take_left, List.drop_left, if_pos]
  refine ⟨hp1, by omega, by omega, ?_⟩
  simp [List.all_eq_true]

@[simp] theorem xorB_length (a b : Bytes) : (xorB a b).length = min a.length b.length := by
  simp [xorB]

theorem xorB_cancel_left (a b : Bytes) (h : a.length = b.length) :
    xorB a (xorB a b) = b := by
  induction a generalizing b with
  | nil => cases b <;> simp_all [xorB]
  | cons x xs ih =>
      cases b with
      | nil => simp at h
      | cons y ys =>
          simp [xorB] at ih ⊢
          refine ⟨Nat.xor_cancel_left x y, ih ys (by simpa using h)⟩

theorem xorB_cancel_right (a b : Bytes) (h : a.length = b.length) :
    xorB (xorB a b) b = a := by
  induction a generalizing b with
  | nil => cases b <;> simp_all [xorB]
  | cons x xs ih =>
      cases b with
      | nil => simp at h
      | cons y ys =>
          simp [xorB] at ih ⊢
          refine ⟨Nat.xor_cancel_right y x, ih ys (by simpa using h)⟩

theorem map_decB_map_encB (P : AesPrims) (key : Bytes) (bs : List Bytes)
    (h : ∀ b ∈ bs, b.length = 16) :
    (bs.map (P.encB key)).map (P.decB key) = bs := by
  induction bs with
  | nil => rfl
  | cons b t ih =>
      simp only [List.map_cons]
      rw [P.decB_encB key b (h b (by simp)), ih (fun x hx => h x (by simp [hx]))]

theorem mem_map_encB_length (P : AesPrims) (key : Bytes) (bs : List Bytes) :
    ∀ b ∈ bs.map (P.encB key), b.length = 16 := by
  intro b hb
  rcases List.mem_map.mp hb with ⟨a, _, rfl⟩
  exact P.encB_length key a

theorem cbcEncBlocks_length (P : AesPrims) (key : Bytes) (bs : List Bytes) :
    ∀ iv, ∀ b ∈ cbcEncBlocks P key iv bs, b.length = 16 := by
  induction bs with
  | nil => intro iv b hb; simp [cbcEncBlocks] at hb
  | cons x t ih =>
      intro iv b hb
      simp only [cbcEncBlocks] at hb
      rcases List.mem_cons.mp hb with rfl | hmem
      · exact P.encB_length key _
      · exact ih _ b hmem

theorem cbcDec_cbcEnc (P : AesPrims) (key : Bytes) (bs : List Bytes) :
    ∀ iv, iv.length = 16 → (∀ b ∈ bs, b.length = 16) →
      cbcDecBlocks P key iv (cbcEncBlocks P key iv bs) = bs := by
  induction bs with
  | nil => intro iv _ _; rfl
  | cons b t ih =>
      intro iv hiv hall
      have hb : b.length = 16 := hall b (by simp)
      have hxor : (xorB iv b).length = 16 := by simp [hiv, hb]
      simp only [cbcEncBlocks, cbcDecBlocks]
      rw [P.decB_encB key _ hxor, xorB_cancel_left iv b (by omega)]
      rw [ih _ (P.encB_length key _) (fun x hx => hall x (by simp [hx]))]

theorem gcmDec_gcmEnc (P : AesPrims) (key nonce aad pt : Bytes) :
    gcmDec P key nonce aad (gcmEnc P key nonce aad pt) = .ok pt := by
  have hks : (P.ks key nonce pt.length).length = pt.length := P.ks_length key nonce _
  unfold gcmEnc gcmDec
  generalize hc : xorB pt (P.ks key nonce pt.length) = ct
  have hct : ct.length = pt.length := by rw [← hc]; simp [hks]
  have htag : (P.tagF key nonce aad ct).length = 16 := P.tagF_length key nonce aad _
  have hlen : (ct ++ P.tagF key nonce aad ct).length = pt.length + 16 := by
    simp [hct, htag]
  have hsub : (ct ++ P.tagF key nonce aad ct).length - 16 = ct.length := by omega
  rw [if_neg (by omega), hsub, List.take_left, List.drop_left, if_pos rfl, hct, ← hc,
    xorB_cancel_right pt (P.ks key nonce pt.length) (by omega)]

theorem ecb_pkcs7_roundtrip (P : AesPrims) (key pt : Bytes) :
    decrypt_aes_inner_in .pkcs7Padding (List.map (P.decB key))
      ((List.map (P.encB key) (chunk16 (pkcs7Pad pt))).flatten) = .ok pt := by
  have hblocks : ∀ b ∈ chunk16 (pkcs7Pad pt), b.length = 16 :=
    chunk16_blocks_length _ (pkcs7Pad_length_mod pt)
  have hencblocks : ∀ b ∈ (chunk16 (pkcs7Pad pt)).map (P.encB key), b.length = 16 :=
    mem_map_encB_length P key _
  have hctlen : ((chunk16 (pkcs7Pad pt)).map (P.encB key)).flatten.length % 16 = 0 := by
    rw [flatten_blocks_length _ hencblocks]
    simp
  unfold decrypt_aes_inner_in
  rw [if_pos hctlen, chunk16_flatten _ hencblocks, map_decB_map_encB P key _ hblocks,
    flatten_chunk16]
  exact pkcs7Unpad_pkcs7Pad pt

theorem cbc_pkcs7_roundtrip (P : AesPrims) (key iv pt : Bytes) (hiv : iv.length = 16) :
    decrypt_aes_inner_in .pkcs7Padding (cbcDecBlocks P key iv)
      ((cbcEncBlocks P key iv (chunk16 (pkcs7Pad pt))).flatten) = .ok pt := by
  have hblocks : ∀ b ∈ chunk16 (pkcs7Pad pt), b.length = 16 :=
    chunk16_blocks_length _ (pkcs7Pad_length_mod pt)
  have hencblocks : ∀ b ∈ cbcEncBlocks P key iv (chunk16 (pkcs7Pad pt)), b.length = 16 :=
    cbcEncBlocks_length P key _ iv
  have hctlen : (cbcEncBlocks P key iv (chunk16 (pkcs7Pad pt))).flatten.length % 16 = 0 := by
    rw [flatten_blocks_length _ hencblocks]
    simp
  unfold decrypt_aes_inner_in
  rw [if_pos hctlen, chunk16_flatten _ hencblocks,
    cbcDec_cbcEnc P key _ iv hiv hblocks, flatten_chunk16]
  exact pkcs7Unpad_pkcs7Pad pt

/-- Claim C4: for every mode in ECB, CBC, GCM, every key of length 16 or
32 bytes and every valid IV for the mode, AES decryption of an AES
encryption returns the original plaintext (with the padding scheme
appropriate to the mode).  Proved for every plaintext, which subsumes the
claim's lengths 0, 1, 15, 16 and 17; the block cipher, keystream and tag
are quantified over every family satisfying the library contract. -/
theorem aes_round_trip (P : AesPrims) (mode : EncryptionMode)
    (key pt : Bytes) (iv aad : Option Bytes) (padding : AesEncryptionPadding)
    (hkey : key.length = 16 ∨ key.length = 32)
    (hiv : ivValid mode iv) (hpad : paddingValid mode padding) :
    (encrypt_or_decrypt_aes P mode pt key iv aad padding true).andThen
      (fun ct => encrypt_or_decrypt_aes P mode ct key iv aad padding false) = .ok pt := by
  cases mode with
  | ecb =>
      have hpad' : padding = .pkcs7Padding := hpad
      subst hpad'
      have h1 : encrypt_or_decrypt_aes P .ecb pt key iv aad .pkcs7Padding true =
          .ok ((List.map (P.encB key) (chunk16 (pkcs7Pad pt))).flatten) := by
        unfold encrypt_or_decrypt_aes encrypt_or_decrypt_aes_inner
        rw [if_pos hkey]
        simp [encrypt_aes_inner_in]
      rw [h1, Res.andThen_ok]
      unfold encrypt_or_decrypt_aes encrypt_or_decrypt_aes_inner
      rw [if_pos hkey]
      simpa using ecb_pkcs7_roundtrip P key pt
  | cbc =>
      have hpad' : padding = .pkcs7Padding := hpad
      subst hpad'
      obtain ⟨v, rfl, hv⟩ := hiv
      have h1 : encrypt_or_decrypt_aes P .cbc pt key (some v) aad .pkcs7Padding true =
          .ok ((cbcEncBlocks P key v (chunk16 (pkcs7Pad pt))).flatten) := by
        unfold encrypt_or_decrypt_aes encrypt_or_decrypt_aes_inner
        rw [if_pos hkey]
        simp [hv, encrypt_aes_inner_in]
      rw [h1, Res.andThen_ok]
      unfold encrypt_or_decrypt_aes encrypt_or_decrypt_aes_inner
      rw [if_pos hkey]
      simp only [if_pos hv, Bool.false_eq_true, if_false]
      exact cbc_pkcs7_roundtrip P key v pt hv
  | gcm =>
      obtain ⟨v, rfl, hv⟩ := hiv
      have h1 : encrypt_or_decrypt_aes P .gcm pt key (some v) aad padding true =
          .ok (gcmEnc P key v (aad.getD []) pt) := by
        unfold encrypt_or_decrypt_aes encrypt_or_decrypt_aes_inner
        rw [if_pos hkey]
        simp [hv]
      rw [h1, Res.andThen_ok]
      unfold encrypt_or_decrypt_aes encrypt_or_decrypt_aes_inner
      rw [if_pos hkey]
      simp only [if_pos hv, Bool.false_eq_true, if_false]
      exact gcmDec_gcmEnc P key v (aad.getD []) pt

/-- Witness for C4 at a concrete CBC instance. -/
theorem aes_round_trip_witness :
    ((List.replicate 16 7 : Bytes).length = 16 ∨ (List.replicate 16 7 : Bytes).length = 32) ∧
    ivValid .cbc (some (List.replicate 16 0)) ∧
    paddingValid .cbc .pkcs7Padding ∧
    (encrypt_or_decrypt_aes demoAesPrims .cbc [1, 2, 3] (List.replicate 16 7)
        (some (List.replicate 16 0)) none .pkcs7Padding true).andThen
      (fun ct => encrypt_or_decrypt_aes demoAesPrims .cbc ct (List.replicate 16 7)
        (some (List.replicate 16 0)) none .pkcs7Padding false) = .ok [1, 2, 3] :=
  ⟨Or.inl (by simp), ⟨_, rfl, by simp⟩, rfl,
    aes_round_trip demoAesPrims .cbc (List.replicate 16 7) [1, 2, 3]
      (some (List.replicate 16 0)) none .pkcs7Padding (Or.inl (by simp))
      ⟨_, rfl, by simp⟩ rfl⟩

/-- Claim C5 (code bug): the source calls `iv.unwrap()` in the CBC and GCM
arms of `encrypt_or_decrypt_aes_inner` and `Nonce::from_slice` in the GCM
arm, so an absent IV (CBC or GCM) and a wrong-length GCM nonce make the
command panic instead of returning the request-validation error the
specification requires; only a wrong-length CBC IV is returned as an
error. -/
theorem aes_missing_iv_panics :
    encrypt_or_decrypt_aes demoAesPrims .cbc [] (List.replicate 16 0) none none
        .pkcs7Padding true = .panicked ∧
    encrypt_or_decrypt_aes demoAesPrims .gcm [] (List.replicate 32 0) none none
        .noPadding true = .panicked ∧
    encrypt_or_decrypt_aes demoAesPrims .gcm [] (List.replicate 32 0)
        (some (List.replicate 16 0)) none .noPadding false = .panicked ∧
    encrypt_or_decrypt_aes demoAesPrims .cbc [] (List.replicate 16 0)
        (some (List.replicate 7 0)) none .pkcs7Padding true =
      .err (.internal ("construct aes_cbc_encryptor failed")) := by
  refine ⟨?_, ?_, ?_, ?_⟩ <;> decide

/-- Claim C6: a key whose length is neither 16 nor 32 makes
`encrypt_or_decrypt_aes` return `Error::Unsupported` at the dispatch
`match`, for every mode, IV, AAD, padding and direction — in particular
before any cipher object is constructed and independently of all other
request data. -/
theorem aes_bad_keysize (P : AesPrims) (mode : EncryptionMode)
    (pt key : Bytes) (iv aad : Option Bytes) (padding : AesEncryptionPadding)
    (forEncryption : Bool)
    (h16 : key.length ≠ 16) (h32 : key.length ≠ 32) :
    encrypt_or_decrypt_aes P mode pt key iv aad padding forEncryption =
      .err (.unsupported ("keysize " ++ toString key.length)) := by
  unfold encrypt_or_decrypt_aes
  rw [if_neg]
  rintro (h | h) <;> contradiction

/-- Witness for C6 with a 15-byte key. -/
theorem aes_bad_keysize_witness :
    (List.replicate 15 0 : Bytes).length ≠ 16 ∧
    (List.replicate 15 0 : Bytes).length ≠ 32 ∧
    encrypt_or_decrypt_aes demoAesPrims .gcm [1] (List.replicate 15 0) none none
        .noPadding true =
      .err (.unsupported ("keysize " ++ toString (List.replicate 15 0 : Bytes).length)) :=
  ⟨by decide, by decide,
    aes_bad_keysize demoAesPrims .gcm [1] (List.replicate 15 0) none none
      .noPadding true (by decide) (by decide)⟩

/-- Claim C9: in `crypto_aes`, an IV or AAD string whose decode under its
declared encoding fails is silently replaced by the empty byte string, an
IV or AAD without an encoding selector is treated as absent, and the
command body simply forwards whatever `dtoIvBytes`/`dtoAadBytes` produce —
neither situation surfaces as an error. -/
theorem crypto_aes_lenient_iv_aad (P : AesPrims) (d : AesEncryptoinDto)
    (s t : String) (e f : TextEncoding) (er es : Error)
    (hiv : e.decode s = .err er) (haad : f.decode t = .err es) :
    dtoIvBytes { d with iv := some s, ivEncoding := some e } = some [] ∧
    dtoAadBytes { d with aad := some t, aadEncoding := some f } = some [] ∧
    dtoIvBytes { d with ivEncoding := none } = none ∧
    dtoAadBytes { d with aadEncoding := none } = none ∧
    crypto_aes P d =
      (d.keyEncoding.decode d.key).andThen (fun keyBytes =>
      (d.inputEncoding.decode d.input).andThen (fun plaintext =>
      (encrypt_or_decrypt_aes P d.mode plaintext keyBytes (dtoIvBytes d)
          (dtoAadBytes d) d.padding d.forEncryption).andThen (fun output =>
      d.outputEncoding.encode output))) := by
  refine ⟨?_, ?_, ?_, ?_, rfl⟩
  · simp [dtoIvBytes, hiv]
  · simp [dtoAadBytes, haad]
  · simp [dtoIvBytes]
  · simp [dtoAadBytes]

/-- Witness for C9: hex decoding of `"zz"` fails, so both the IV and the
AAD collapse to the empty byte string. -/
theorem crypto_aes_lenient_iv_aad_witness :
    TextEncoding.hex.decode "zz" = .err (.internal ("hex encode failed")) ∧
    dtoIvBytes { input := "", inputEncoding := .utf8, key := "", keyEncoding := .utf8,
                 outputEncoding := .utf8, mode := .gcm, padding := .noPadding,
                 iv := some "zz", ivEncoding := some .hex, aad := none,
                 aadEncoding := none, forEncryption := true } = some [] :=
  ⟨by decide,
    (crypto_aes_lenient_iv_aad demoAesPrims
      { input := "", inputEncoding := .utf8, key := "", keyEncoding := .utf8,
        outputEncoding := .utf8, mode := .gcm, padding := .noPadding,
        iv := some "zz", ivEncoding := some .hex, aad := none,
        aadEncoding := none, forEncryption := true }
      "zz" "zz" .hex .hex (.internal ("hex encode failed"))
      (.internal ("hex encode failed")) (by decide) (by decide)).1⟩

theorem gcm_kd_call_enc (P : EciesPrims) (okm pt : Bytes) (h : okm.length = 44) :
    encrypt_or_decrypt_aes P.toAesPrims .gcm pt (okm.take 32) (some (okm.drop 32))
        none .noPadding true =
      .ok (gcmEnc P.toAesPrims (okm.take 32) (okm.drop 32) [] pt) := by
  have hk : (okm.take 32).length = 32 := by simp [h]
  have hiv : (okm.drop 32).length = 12 := by simp [h]
  unfold encrypt_or_decrypt_aes encrypt_or_decrypt_aes_inner
  rw [if_pos (Or.inr hk)]
  simp [hiv]

theorem gcm_kd_call_dec (P : EciesPrims) (okm ct : Bytes) (h : okm.length = 44) :
    encrypt_or_decrypt_aes P.toAesPrims .gcm ct (okm.take 32) (some (okm.drop 32))
        none .noPadding false =
      gcmDec P.toAesPrims (okm.take 32) (okm.drop 32) [] ct := by
  have hk : (okm.take 32).length = 32 := by simp [h]
  have hiv : (okm.drop 32).length = 12 := by simp [h]
  unfold encrypt_or_decrypt_aes encrypt_or_decrypt_aes_inner
  rw [if_pos (Or.inr hk)]
  simp [hiv]

/-- For every primitive family and every importable recipient key, the
NIST/secp `ecies_inner` round trip on the empty plaintext ends in a panic:
encryption emits the 28-byte `nonce || tag` envelope without the ephemeral
public key and decryption's first slice `input[..32]` is out of range. -/
theorem ecies_inner_round_trip_fails_general (P : EciesPrims) (key privKey : Bytes)
    (r : Nat) (himp : P.wImportPub key .der = some r) (ephPriv : Nat)
    (format : EccKeyFormat) :
    (ecies_inner P 32 ephPriv (List.replicate 12 0) [] key format .der true).andThen
      (fun ct =>
        ecies_inner P 32 ephPriv (List.replicate 12 0) ct privKey format .der false) =
      .panicked := by
  have henc : ecies_inner P 32 ephPriv (List.replicate 12 0) [] key format .der true =
      .ok (List.replicate 12 0 ++
        gcmEnc P.toAesPrims (natToBytesLE 32 (ecdhShared ephPriv r))
          (List.replicate 12 0) [] []) := by
    unfold ecies_inner ecies_inner_encrypt
    simp [himp]
  rw [henc, Res.andThen_ok]
  have hlen : (List.replicate 12 0 ++
      gcmEnc P.toAesPrims (natToBytesLE 32 (ecdhShared ephPriv r))
        (List.replicate 12 0) [] []).length = 28 := by
    simp [gcmEnc, xorB, P.tagF_length]
  unfold ecies_inner ecies_inner_decrypt
  simp only [Bool.false_eq_true, if_false]
  rw [if_pos (by omega)]

/-- Claim C1 (code bug): the NIST/secp branch `ecies_inner` of the `ecies`
command does not round-trip.  Its encryption writes `nonce || aead_ct` and
never the ephemeral public key, while its decryption re-imports
`input[..32]` as a DER public key, so the shared secret is unrecoverable;
for the empty plaintext the envelope is only 28 bytes and the very first
slice `input[..32]` already panics, as evaluated here at a concrete key
pair.  The repository's own test `test_generate_and_encryption` asserts
this round-trip for all five curves and fails on this code. -/
theorem ecies_inner_round_trip_fails :
    demoEciesPrims.wImportPub demoWPubKey .der = some 5 ∧
    (ecies_inner demoEciesPrims 32 3 (List.replicate 12 0) [] demoWPubKey
        .pkcs8 .der true).andThen
      (fun ct => ecies_inner demoEciesPrims 32 3 (List.replicate 12 0) ct
        demoPrivKey .pkcs8 .der false) = .panicked :=
  ⟨by decide,
    ecies_inner_round_trip_fails_general demoEciesPrims demoWPubKey demoPrivKey 5
      (by decide) 3 .pkcs8⟩

/-- Counterexample for C2: the live Curve25519 ECIES encryption
(`crypto/edwards.rs::curve_25519_ecies_encrypt`) emits the 32-byte
ephemeral public key directly — its first output byte is the first byte of
the key (here 7), not the 1-byte length prefix 32 the claim requires. -/
theorem curve25519_ecies_no_length_prefix_cex :
    curve_25519_ecies demoEciesPrims 7 [1] demoEdPubKey .der true =
      .ok (natToBytesLE 32 7 ++ 1 :: List.replicate 16 0) ∧
    (natToBytesLE 32 7 ++ 1 :: List.replicate 16 0).take 1 ≠
      [(natToBytesLE 32 7).length] := by
  constructor <;> decide

/-- Claim C2 (amended): only the older generation
(`crypto/curve_25519.rs::curve_25519_ecies_inner`) emits the length
prefix: its envelope is `32 || ephemeral_key(32) || aead_ct`; on
decryption a prefix other than 32 is rejected with `Error::Unsupported`
(not a malformed-envelope error), and a prefix of 32 whose key bytes
exceed the buffer panics in `split_at`. -/
theorem curve25519_ecies_inner_envelope (P : EciesPrims) (eph : Nat)
    (pt key : Bytes) (r : Nat) (format : EccKeyFormat) (encoding : KeyFormat)
    (lenByte : Nat) (rest shortRest : Bytes)
    (himp : P.edImportPub key encoding = some r)
    (hlen : lenByte ≠ 32) (hshort : shortRest.length < 32) :
    curve_25519_ecies_inner P eph pt key format encoding true =
      .ok (32 :: natToBytesLE 32 eph ++
        gcmEnc P.toAesPrims
          ((P.kd (natToBytesLE 32 (ecdhShared eph r)) SALT_BYTES 210000 44).take 32)
          ((P.kd (natToBytesLE 32 (ecdhShared eph r)) SALT_BYTES 210000 44).drop 32)
          [] pt) ∧
    curve_25519_ecies_inner P eph (lenByte :: rest) key format encoding false =
      .err (.unsupported ("unsupported pubkey length " ++ toString lenByte)) ∧
    curve_25519_ecies_inner P eph (32 :: shortRest) key format encoding false =
      .panicked := by
  refine ⟨?_, ?_, ?_⟩
  · have hcall := gcm_kd_call_enc P
      (P.kd (natToBytesLE 32 (ecdhShared eph r)) SALT_BYTES 210000 44) pt
      (P.kd_length _ _ _ _)
    unfold curve_25519_ecies_inner
    simp [himp, hcall, Res.map]
  · unfold curve_25519_ecies_inner
    simp [hlen]
  · unfold curve_25519_ecies_inner
    simp [hshort]

/-- Witness for the amended C2 at the demo instance (ephemeral scalar 4,
bad prefix 7, empty remainder). -/
theorem curve25519_ecies_inner_envelope_witness :
    demoEciesPrims.edImportPub demoEdPubKey .der = some 9 ∧ (7 : Nat) ≠ 32 ∧
    ([] : Bytes).length < 32 ∧
    curve_25519_ecies_inner demoEciesPrims 4 [2] demoEdPubKey .pkcs8 .der true =
      .ok (32 :: natToBytesLE 32 4 ++
        gcmEnc demoEciesPrims.toAesPrims
          ((demoEciesPrims.kd (natToBytesLE 32 (ecdhShared 4 9)) SALT_BYTES 210000 44).take 32)
          ((demoEciesPrims.kd (natToBytesLE 32 (ecdhShared 4 9)) SALT_BYTES 210000 44).drop 32)
          [] [2]) :=
  ⟨by decide, by decide, by decide,
    (curve25519_ecies_inner_envelope demoEciesPrims 4 [2] demoEdPubKey 9 .pkcs8
      .der 7 [] [] (by decide) (by decide) (by decide)).1⟩

/-- Counterexample for C3: in the NIST/secp `ecies_inner` path the GCM
nonce is the randomly drawn nonce (here twelve 1-bytes), not bytes
`[32:44]` of a PBKDF2 expansion of the shared secret (here twelve
0-bytes): no KDF is invoked on that path at all. -/
theorem ecies_nonce_not_kdf_derived_cex :
    (ecies_inner demoEciesPrims 32 3 (List.replicate 12 1) [9] demoWPubKey
        .pkcs8 .der true).map (List.take 12) = .ok (List.replicate 12 1) ∧
    (demoEciesPrims.kd (natToBytesLE 32 (ecdhShared 3 5)) SALT_BYTES 210000 44).drop 32 ≠
      List.replicate 12 1 := by
  constructor <;> decide

/-- Claim C3 (amended): the fixed-parameter PBKDF2 expansion (210,000
iterations, hard-coded salt, 44 bytes split as key `[0:32]` / nonce
`[32:44]`) holds on the Curve25519 paths, for both encryption and
decryption; the NIST/secp `ecies_inner` path instead uses the raw
shared-secret bytes as the AES-256-GCM key and a randomly generated
nonce. -/
theorem ecies_key_nonce_derivation (P : EciesPrims) (ephPriv : Nat)
    (nonce ptW keyW : Bytes) (rW : Nat) (encodingW : KeyFormat)
    (ephEd : Nat) (ptEd keyEd privKeyEd : Bytes) (rEd sEd : Nat)
    (formatEd : KeyFormat) (pub32 rest : Bytes)
    (himpW : P.wImportPub keyW encodingW = some rW)
    (himpEd : P.edImportPub keyEd formatEd = some rEd)
    (himpPrivEd : P.edImportPriv privKeyEd formatEd = some sEd)
    (hpub : pub32.length = 32) :
    ecies_inner_encrypt P 32 ephPriv nonce ptW keyW encodingW =
      .ok (nonce ++ gcmEnc P.toAesPrims
        (natToBytesLE 32 (ecdhShared ephPriv rW)) nonce [] ptW) ∧
    curve_25519_ecies_encrypt P ephEd ptEd keyEd formatEd =
      .ok (natToBytesLE 32 ephEd ++
        gcmEnc P.toAesPrims
          ((P.kd (natToBytesLE 32 (ecdhShared ephEd rEd)) SALT_BYTES 210000 44).take 32)
          ((P.kd (natToBytesLE 32 (ecdhShared ephEd rEd)) SALT_BYTES 210000 44).drop 32)
          [] ptEd) ∧
    curve_25519_ecies_decrypt P (pub32 ++ rest) privKeyEd formatEd =
      gcmDec P.toAesPrims
        ((P.kd (natToBytesLE 32 (ecdhShared sEd (bytesFromLE pub32))) SALT_BYTES 210000 44).take 32)
        ((P.kd (natToBytesLE 32 (ecdhShared sEd (bytesFromLE pub32))) SALT_BYTES 210000 44).drop 32)
        [] rest := by
  refine ⟨?_, ?_, ?_⟩
  · unfold ecies_inner_encrypt
    simp [himpW]
  · have hcall := gcm_kd_call_enc P
      (P.kd (natToBytesLE 32 (ecdhShared ephEd rEd)) SALT_BYTES 210000 44) ptEd
      (P.kd_length _ _ _ _)
    unfold curve_25519_ecies_encrypt
    simp [himpEd, hcall, Res.map]
  · have hcall := gcm_kd_call_dec P
      (P.kd (natToBytesLE 32 (ecdhShared sEd (bytesFromLE pub32))) SALT_BYTES 210000 44) rest
      (P.kd_length _ _ _ _)
    have hge : ¬ (pub32 ++ rest).length < 32 := by simp [hpub]
    unfold curve_25519_ecies_decrypt
    simp [himpPrivEd, hge, List.take_left' hpub, List.drop_left' hpub, hcall]
    intro hcontra
    omega

/-- Witness for the amended C3 at the demo instance. -/
theorem ecies_key_nonce_derivation_witness :
    demoEciesPrims.wImportPub demoWPubKey .der = some 5 ∧
    demoEciesPrims.edImportPub demoEdPubKey .der = some 9 ∧
    demoEciesPrims.edImportPriv demoPrivKey .der = some 11 ∧
    (List.replicate 32 0 : Bytes).length = 32 ∧
    ecies_inner_encrypt demoEciesPrims 32 3 (List.replicate 12 1) [9] demoWPubKey .der =
      .ok (List.replicate 12 1 ++ gcmEnc demoEciesPrims.toAesPrims
        (natToBytesLE 32 (ecdhShared 3 5)) (List.replicate 12 1) [] [9]) :=
  ⟨by decide, by decide, by decide, by decide,
    (ecies_key_nonce_derivation demoEciesPrims 3 (List.replicate 12 1) [9]
      demoWPubKey 5 .der 4 [2] demoEdPubKey demoPrivKey 9 11 .der
      (List.replicate 32 0) [] (by decide) (by decide) (by decide) (by decide)).1⟩

theorem hmacPadKey_replicate_zero (Pr : KdfPrims) (d : Digest) :
    hmacPadKey Pr d (List.replicate d.hashLen 0) = hmacPadKey Pr d [] := by
  have hle : d.hashLen ≤ d.blockLen := by cases d <;> decide
  unfold hmacPadKey
  rw [if_neg (by simp; omega), if_neg (by simp)]
  simp [← List.replicate_add]
  omega

/-- Claim C7 (amended): PBKDF2 and scrypt reject an absent salt with
`Error::Unsupported` ("… salt is required"); for HKDF an absent salt
behaves exactly like the empty salt (the RFC 5869 default of `hash_len`
zero bytes equals the empty HMAC key after block-size zero-padding) and an
absent info like the empty info, and derivation succeeds precisely for
requested lengths up to `255 * hash_len` (the RFC 5869 expansion bound the
`hkdf` crate enforces), failing beyond it; the Concatenation-KDF ignores
the salt entirely and defaults an absent info to empty. -/
theorem kdf_salt_and_bounds (Pr : KdfPrims) (d : Digest) (input : Bytes)
    (salt info : Option Bytes) (s : Bytes) (n : Nat) :
    kdf_inner Pr d .pbkdf2 input none info n =
      .err (.unsupported ("pbkdf2 salt is required")) ∧
    kdf_inner Pr d .scrypt input none info n =
      .err (.unsupported ("scrypt salt is required")) ∧
    kdf_inner Pr d .hkdf input none info n =
      kdf_inner Pr d .hkdf input (some []) info n ∧
    kdf_inner Pr d .hkdf input salt none n =
      kdf_inner Pr d .hkdf input salt (some []) n ∧
    kdf_inner Pr d .hkdf input none info n =
      (if 255 * d.hashLen < n then .err (.internal ("hkdf derive key faild"))
       else .ok (hkdfOkm Pr d (hkdfExtract Pr d none input) (info.getD []) n)) ∧
    kdf_inner Pr d .concatenation input none info n =
      kdf_inner Pr d .concatenation input (some s) info n ∧
    kdf_inner Pr d .concatenation input salt none n =
      kdf_inner Pr d .concatenation input salt (some []) n := by
  refine ⟨rfl, rfl, ?_, rfl, rfl, rfl, rfl⟩
  simp [kdf_inner, hkdfExtract, hmac, hmacPadKey_replicate_zero]

/-- Counterexample for C7: HKDF derivation does not succeed for every
requested output length — one byte past the RFC 5869 bound
(`255 * 32 + 1` for SHA-256) it returns an error. -/
theorem kdf_hkdf_output_bound_cex :
    kdf_inner demoKdfPrims .sha256 .hkdf [1] none none 8161 =
      .err (.internal ("hkdf derive key faild")) ∧
    8161 = 255 * Digest.hashLen .sha256 + 1 := by
  constructor <;> decide

theorem parse_curve_name_priv_spec (S : SniffPrims) (key : Bytes) :
    parse_curve_name S key .pkcs8 .der =
      (match curvePriority.find? (fun c => S.importPriv c key .pkcs8 .der) with
        | some c => .ok c
        | none => .err (.unsupported ("informal ecc key type"))) := by
  unfold parse_curve_name curvePriority
  cases h1 : S.importPriv .nistP256 key .pkcs8 .der <;>
    cases h2 : S.importPriv .nistP384 key .pkcs8 .der <;>
      cases h3 : S.importPriv .nistP521 key .pkcs8 .der <;>
        cases h4 : S.importPriv .secp256k1 key .pkcs8 .der <;>
          cases h5 : S.importPriv .sm2 key .pkcs8 .der <;>
            simp [List.find?, h1, h2, h3, h4, h5]

theorem parse_curve_name_pub_spec (S : SniffPrims) (key : Bytes) :
    parse_curve_name S key .spki .der =
      (match curvePriority.find? (fun c => S.importPub c key .der) with
        | some c => .ok c
        | none => .err (.unsupported ("informal ecc key type"))) := by
  unfold parse_curve_name curvePriority
  cases h1 : S.importPub .nistP256 key .der <;>
    cases h2 : S.importPub .nistP384 key .der <;>
      cases h3 : S.importPub .nistP521 key .der <;>
        cases h4 : S.importPub .secp256k1 key .der <;>
          cases h5 : S.importPub .sm2 key .der <;>
            simp [List.find?, h1, h2, h3, h4, h5]

/-- Claim C8: on raw DER bytes of unknown family, `parse_ecc` tries each
known curve's private-key importer and then each public-key importer in
the fixed priority order NistP256, NistP384, NistP521, Secp256k1, SM2,
returns the curve of the first importer that succeeds, and reports an
unsupported-content error when all fail — it coincides with the
first-success specification `sniffSpec`, and being a function of its input
it is deterministic. -/
theorem parse_ecc_der_first_success (S : SniffPrims) (key : Bytes) :
    parse_ecc_der S key = sniffSpec S key := by
  unfold parse_ecc_der sniffSpec
  rw [parse_curve_name_priv_spec, parse_curve_name_pub_spec]
  cases curvePriority.find? (fun c => S.importPriv c key .pkcs8 .der) with
  | some c => rfl
  | none =>
      cases curvePriority.find? (fun c => S.importPub c key .der) with
      | some c => rfl
      | none => rfl

theorem b64Index_b64Char : ∀ n < 64, b64Index (b64Char n) = some n := by decide

theorem b64Char_ne_pad : ∀ n < 64, b64Char n ≠ '=' := by decide

theorem hexVal_hexChar : ∀ n < 16, hexVal (hexChar n) = some n := by decide

theorem hexDecode_hexEncode (bs : Bytes) :
    (∀ b ∈ bs, b < 256) → hexDecodeChars (hexEncodeBytes bs) = some bs := by
  induction bs with
  | nil => intro _; rfl
  | cons b t ih =>
      intro hb
      have hblt : b < 256 := hb b (by simp)
      have h1 : b / 16 < 16 := by omega
      have h2 : b % 16 < 16 := by omega
      simp [hexEncodeBytes, hexDecodeChars, hexVal_hexChar _ h1,
        hexVal_hexChar _ h2, ih (fun x hx => hb x (by simp [hx]))]
      omega

theorem b64EncodeBytes_ne_nil (b : Nat) (bs : Bytes) :
    b64EncodeBytes (b :: bs) ≠ [] := by
  rcases bs with _ | ⟨b1, _ | ⟨b2, rest⟩⟩ <;> simp [b64EncodeBytes]

theorem b64Decode_b64Encode (bs : Bytes) :
    (∀ b ∈ bs, b < 256) → b64DecodeChars (b64EncodeBytes bs) = some bs := by
  induction bs using b64EncodeBytes.induct with
  | case1 => intro _; rfl
  | case2 b0 =>
      intro hb
      have h0 : b0 < 256 := hb b0 (by simp)
      have hs0 : b0 / 4 < 64 := by omega
      have hs1 : b0 % 4 * 16 < 64 := by omega
      simp [b64EncodeBytes, b64DecodeChars, b64Index_b64Char _ hs0,
        b64Index_b64Char _ hs1]
      omega
  | case3 b0 b1 =>
      intro hb
      have h0 : b0 < 256 := hb b0 (by simp)
      have h1 : b1 < 256 := hb b1 (by simp)
      have hs0 : b0 / 4 < 64 := by omega
      have hs1 : b0 % 4 * 16 + b1 / 16 < 64 := by omega
      have hs2 : b1 % 16 * 4 < 64 := by omega
      simp [b64EncodeBytes, b64DecodeChars, b64Char_ne_pad _ hs2,
        b64Index_b64Char _ hs0, b64Index_b64Char _ hs1, b64Index_b64Char _ hs2]
      omega
  | case4 b0 b1 b2 rest ih =>
      intro hb
      have h0 : b0 < 256 := hb b0 (by simp)
      have h1 : b1 < 256 := hb b1 (by simp)
      have h2 : b2 < 256 := hb b2 (by simp)
      have hrest : ∀ x ∈ rest, x < 256 := fun x hx => hb x (by simp [hx])
      have hs0 : b0 / 4 < 64 := by omega
      have hs1 : b0 % 4 * 16 + b1 / 16 < 64 := by omega
      have hs2 : b1 % 16 * 4 + b2 / 64 < 64 := by omega
      have hs3 : b2 % 64 < 64 := by omega
      rcases eq_or_ne rest [] with rfl | hne
      · simp [b64EncodeBytes, b64DecodeChars, b64DecodeQuantum,
          b64Char_ne_pad _ hs2, b64Char_ne_pad _ hs3,
          b64Index_b64Char _ hs0, b64Index_b64Char _ hs1,
          b64Index_b64Char _ hs2, b64Index_b64Char _ hs3]
        omega
      · obtain ⟨r0, rs, rfl⟩ := List.exists_cons_of_ne_nil hne
        simp [b64EncodeBytes, b64DecodeChars, b64DecodeQuantum,
          b64EncodeBytes_ne_nil, b64Index_b64Char _ hs0, b64Index_b64Char _ hs1,
          b64Index_b64Char _ hs2, b64Index_b64Char _ hs3, ih hrest]
        omega

/-- Claim C10: for the Base64 and Hex text encodings, decoding an encoding
of any byte string returns that byte string exactly, and the empty byte
string and the empty string are special-cased on both sides. -/
theorem codec_round_trips (bs : Bytes) (hb : ∀ b ∈ bs, b < 256) :
    (base64_encode bs).andThen base64_decode = .ok bs ∧
    (hex_encode bs).andThen hex_decode = .ok bs ∧
    base64_encode [] = .ok "" ∧ base64_decode "" = .ok [] ∧
    hex_encode [] = .ok "" ∧ hex_decode "" = .ok [] := by
  refine ⟨?_, ?_, rfl, rfl, rfl, rfl⟩
  · rcases eq_or_ne bs [] with rfl | hne
    · rfl
    · obtain ⟨b, t, rfl⟩ := List.exists_cons_of_ne_nil hne
      unfold base64_encode
      rw [if_neg (by simp), Res.andThen_ok]
      unfold base64_decode
      rw [if_neg (fun hc => b64EncodeBytes_ne_nil b t
        (by simpa using congrArg String.data hc))]
      have htl : (String.mk (b64EncodeBytes (b :: t))).toList =
          b64EncodeBytes (b :: t) := rfl
      rw [htl, b64Decode_b64Encode _ hb]
  · rcases eq_or_ne bs [] with rfl | hne
    · rfl
    · obtain ⟨b, t, rfl⟩ := List.exists_cons_of_ne_nil hne
      unfold hex_encode
      rw [if_neg (by simp), Res.andThen_ok]
      unfold hex_decode
      rw [if_neg (fun hc => by
        have := congrArg String.data hc
        simp [hexEncodeBytes] at this)]
      have htl : (String.mk (hexEncodeBytes (b :: t))).toList =
          hexEncodeBytes (b :: t) := rfl
      rw [htl, hexDecode_hexEncode _ hb]

/-- Witness for C10 with a four-byte string (one full quantum plus a
padded final quantum). -/
theorem codec_round_trips_witness :
    (∀ b ∈ ([0, 255, 100, 7] : Bytes), b < 256) ∧
    (base64_encode [0, 255, 100, 7]).andThen base64_decode = .ok [0, 255, 100, 7] ∧
    (hex_encode [0, 255, 100, 7]).andThen hex_decode = .ok [0, 255, 100, 7] :=
  ⟨by decide,
    (codec_round_trips [0, 255, 100, 7] (by decide)).1,
    (codec_round_trips [0, 255, 100, 7] (by decide)).2.1⟩

end Kits
